import Mathlib

/-!
Verification of the resume-builder generation service core
(`llm_resume_builder.py`): JSON repair parsing, field sanitization,
schema-directed coercion, and recursive empty-value pruning.

Python values flowing through the pipeline are JSON-compatible values:
`None`, booleans, ints, floats, strings, lists, dicts.  They are embedded
as the inductive `JVal`; Python strings are lists of characters; dicts are
ordered association lists (Python dicts preserve insertion order and have
unique keys).  Functions that can raise are embedded with `Except`;
`json.loads` is an abstract parameter `parse : List Char → Option JVal`
(`none` meaning the parser raised).
-/

namespace ResumeBuilder

/-- The runtime type of a Python JSON-compatible value, as compared with
`type(x)`.  `bool`, `int` and `float` are distinct Python types. -/
inductive PyType where
  | noneType
  | boolType
  | intType
  | floatType
  | strType
  | listType
  | dictType
deriving DecidableEq, Repr

/-- A Python JSON-compatible value: `None`, `bool`, `int`, `float`, `str`,
`list`, `dict` (ordered association list with string keys, as produced by
`json.loads`). -/
inductive JVal where
  | null
  | bool (b : Bool)
  | int (n : Int)
  | float (q : ℚ)
  | str (s : List Char)
  | list (items : List JVal)
  | dict (entries : List (String × JVal))

mutual

/-- Boolean equality on embedded values (Python `==` restricted to same-typed
JSON values; cross-type comparisons relevant to the code are handled
separately). -/
def JVal.beq : JVal → JVal → Bool
  | .null, .null => true
  | .bool a, .bool b => a == b
  | .int a, .int b => a == b
  | .float a, .float b => a == b
  | .str a, .str b => a == b
  | .list a, .list b => JVal.beqItems a b
  | .dict a, .dict b => JVal.beqEntries a b
  | _, _ => false

/-- Pointwise `JVal.beq` on lists. -/
def JVal.beqItems : List JVal → List JVal → Bool
  | [], [] => true
  | a :: as, b :: bs => JVal.beq a b && JVal.beqItems as bs
  | _, _ => false

/-- Pointwise `JVal.beq` on dict entry lists. -/
def JVal.beqEntries : List (String × JVal) → List (String × JVal) → Bool
  | [], [] => true
  | (k, v) :: as, (k2, v2) :: bs => k == k2 && JVal.beq v v2 && JVal.beqEntries as bs
  | _, _ => false

end

mutual

/-- `JVal.beq` decides propositional equality. -/
def JVal.beq_iff : ∀ a b : JVal, JVal.beq a b = true ↔ a = b
  | .null, b => by cases b <;> simp [JVal.beq]
  | .bool a, b => by cases b <;> simp [JVal.beq]
  | .int a, b => by cases b <;> simp [JVal.beq]
  | .float a, b => by cases b <;> simp [JVal.beq]
  | .str a, b => by cases b <;> simp [JVal.beq]
  | .list a, b => by
    cases b <;> simp [JVal.beq]
    exact JVal.beqItems_iff a _
  | .dict a, b => by
    cases b <;> simp [JVal.beq]
    exact JVal.beqEntries_iff a _

/-- `JVal.beqItems` decides propositional equality. -/
def JVal.beqItems_iff : ∀ a b : List JVal, JVal.beqItems a b = true ↔ a = b
  | [], b => by cases b <;> simp [JVal.beqItems]
  | a :: as, b => by
    cases b with
    | nil => simp [JVal.beqItems]
    | cons c cs => simp [JVal.beqItems, JVal.beq_iff a c, JVal.beqItems_iff as cs]

/-- `JVal.beqEntries` decides propositional equality. -/
def JVal.beqEntries_iff : ∀ a b : List (String × JVal), JVal.beqEntries a b = true ↔ a = b
  | [], b => by cases b <;> simp [JVal.beqEntries]
  | (k, v) :: as, b => by
    cases b with
    | nil => simp [JVal.beqEntries]
    | cons c cs =>
      obtain ⟨k2, v2⟩ := c
      simp [JVal.beqEntries, JVal.beq_iff v v2, JVal.beqEntries_iff as cs, and_assoc]

end

instance : DecidableEq JVal := fun a b =>
  decidable_of_iff (JVal.beq a b = true) (JVal.beq_iff a b)

/-- Shorthand for embedding a Lean string literal as a Python string value. -/
def jstr (s : String) : JVal := .str s.data

/-- `type(v)` of an embedded value. -/
def JVal.ptype : JVal → PyType
  | .null => .noneType
  | .bool _ => .boolType
  | .int _ => .intType
  | .float _ => .floatType
  | .str _ => .strType
  | .list _ => .listType
  | .dict _ => .dictType

/-- `isinstance(v, str)`. -/
def JVal.isStr : JVal → Bool
  | .str _ => true
  | _ => false

/-- `isinstance(v, list)`. -/
def JVal.isList : JVal → Bool
  | .list _ => true
  | _ => false

/-- `isinstance(v, dict)`. -/
def JVal.isDict : JVal → Bool
  | .dict _ => true
  | _ => false

/-- The characters Python `str.strip` / `str.rstrip` remove. -/
def isPySpace (c : Char) : Bool :=
  c == ' ' || c == '\t' || c == '\n' || c == '\r' || c == '\x0b' || c == '\x0c'

/-- Python `s.lstrip()` on a character list. -/
def pyLstrip (l : List Char) : List Char := l.dropWhile isPySpace

/-- Python `s.rstrip()` on a character list. -/
def pyRstrip (l : List Char) : List Char := (l.reverse.dropWhile isPySpace).reverse

/-- Python `s.strip()` on a character list. -/
def pyStrip (l : List Char) : List Char := pyRstrip (pyLstrip l)

/-- `sanitize_value(key, value)` from `llm_resume_builder.py`: field-keyed
cleanup of a single value.  `key` is the enclosing field name (`none` models
Python's `current_key=None`).  The rules, in source order: `"score"` strings
lose every `%` and surrounding whitespace; `startDate`/`endDate`/`issueDate`
strings of length exactly 7 gain a `-01` suffix, other strings pass through;
`socials`/`links` non-list values become `[]`; `skillName` non-strings become
`""`; everything else passes through unchanged. -/
def sanitize_value : Option String → JVal → JVal
  | some "score", .str s => .str (pyStrip (s.filter fun c => c ≠ '%'))
  | some "startDate", .str s => if s.length = 7 then .str (s ++ "-01".data) else .str s
  | some "endDate", .str s => if s.length = 7 then .str (s ++ "-01".data) else .str s
  | some "issueDate", .str s => if s.length = 7 then .str (s ++ "-01".data) else .str s
  | some "socials", v => if v.isList then v else .list []
  | some "links", v => if v.isList then v else .list []
  | some "skillName", v => if v.isStr then v else .str []
  | _, v => v

/-- Auxiliary count for `re.findall(r'(?<!\\)"', raw)`: counts the
double quotes whose immediately preceding character (threaded as `prev`)
is not a backslash. -/
def cuqAux : Option Char → List Char → Nat
  | _, [] => 0
  | prev, c :: rest =>
    (if c = '"' ∧ prev ≠ some '\\' then 1 else 0) + cuqAux (some c) rest

/-- Number of double-quote characters not preceded by a backslash,
as counted by the regex `(?<!\\)"` in `safe_json_extract`. -/
def countUnescQuotes (l : List Char) : Nat := cuqAux none l

/-- The repair phase of `safe_json_extract` (`llm_resume_builder.py`): the
text actually handed to `json.loads`.  Mirrors the source statement by
statement: rstrip, append a quote when the unescaped-quote count is odd,
then build `fix` by appending `}` on curly imbalance, `]` on square
imbalance, and one more `}` when curly braces (counting the one already in
`fix`) are still fewer than the opens. -/
def repairText (text : List Char) : List Char :=
  let raw := pyRstrip text
  let raw := if countUnescQuotes raw % 2 = 1 then raw ++ ['"'] else raw
  let fix : List Char := []
  let fix := if raw.count '}' < raw.count '{' then fix ++ ['}'] else fix
  let fix := if raw.count ']' < raw.count '[' then fix ++ [']'] else fix
  let fix := if raw.count '}' + fix.count '}' < raw.count '{' then fix ++ ['}'] else fix
  raw ++ fix

/-- The repair text as the specification describes it: the trimmed input
followed by exactly the appended characters, in order — one closing quote
if the unescaped-quote count of the trimmed input is odd, one `}` if `{`
exceeds `}`, one `]` if `[` exceeds `]`, and one more `}` if closing braces
(including the one appended two steps earlier) are still fewer than opening
braces. -/
def repairSpecText (text : List Char) : List Char :=
  let r := pyRstrip text
  let q := if countUnescQuotes r % 2 = 1 then ['"'] else ([] : List Char)
  let b1 := if r.count '{' > r.count '}' then ['}'] else ([] : List Char)
  let s1 := if r.count '[' > r.count ']' then [']'] else ([] : List Char)
  let b2 := if r.count '{' > r.count '}' + b1.length then ['}'] else ([] : List Char)
  r ++ q ++ b1 ++ s1 ++ b2

/-- `safe_json_extract(text)`: repair the text, then `json.loads` it; the
`except` branch prints a diagnostic (I/O, not modelled) and returns `{}`.
`parse` abstracts `json.loads`, with `none` standing for a raised
exception. -/
def safe_json_extract (parse : List Char → Option JVal) (text : List Char) : JVal :=
  match parse (repairText text) with
  | some v => v
  | none => .dict []

mutual

/-- `enforce_schema_format(data, schema, current_key)` from
`llm_resume_builder.py`: recursively forces `data` into the exact shape of
`schema`.  Dict schema: iterate the schema's entries (`coerceEntries`),
treating non-dict data as `{}`.  List schema: non-list data yields `[]`; an
empty schema list keeps the data elements that are dicts or strings; a
non-empty schema list coerces every dict element of the data against the
schema's first element and drops the rest.  Primitive schema: sanitize the
data under `current_key`, falling back to the schema value when the schema
value is not `None` and the runtime types differ. -/
def enforce_schema_format (data schema : JVal) (current_key : Option String) : JVal :=
  match schema with
  | .dict sentries =>
    let d := match data with | .dict des => des | _ => []
    .dict (coerceEntries d sentries)
  | .list sitems =>
    match data with
    | .list ditems =>
      match sitems with
      | [] => .list (ditems.filter fun item => item.isDict || item.isStr)
      | t :: _ => .list (ditems.filterMap fun item =>
          if item.isDict then some (enforce_schema_format item t none) else none)
    | _ => .list []
  | sv =>
    let cleaned := sanitize_value current_key data
    if sv.ptype ≠ PyType.noneType ∧ cleaned.ptype ≠ sv.ptype then sv else cleaned

/-- The dict loop of `enforce_schema_format`: one output entry per schema
entry, in schema order.  A key absent from the data keeps the schema value
verbatim; a present key recurses (for dict/list schema values, with the key
as `current_key`) or sanitizes and type-checks (for primitive schema
values). -/
def coerceEntries (d : List (String × JVal)) (sentries : List (String × JVal)) :
    List (String × JVal) :=
  match sentries with
  | [] => []
  | (key, schema_value) :: rest =>
    (match d.lookup key with
     | none => (key, schema_value)
     | some raw_value =>
       if schema_value.isDict || schema_value.isList then
         (key, enforce_schema_format raw_value schema_value (some key))
       else
         let cleaned := sanitize_value (some key) raw_value
         (key, if schema_value.ptype ≠ PyType.noneType ∧ cleaned.ptype ≠ schema_value.ptype
               then schema_value else cleaned)) :: coerceEntries d rest

end

/-- The membership test `cleaned_value in ("", None, [], {})` from
`deep_clean`: true exactly for `None`, the empty string, the empty list and
the empty dict (Python `==` never equates the numbers and booleans with any
of these four). -/
def isEmptyVal : JVal → Bool
  | .null => true
  | .str [] => true
  | .list [] => true
  | .dict [] => true
  | _ => false

mutual

/-- `deep_clean(obj)` from `llm_resume_builder.py`: recursively remove
empty strings, empty lists, empty dicts and `None` from containers, and
trim strings. -/
def deep_clean : JVal → JVal
  | .dict entries => .dict (cleanEntries entries)
  | .list items => .list (cleanItems items)
  | .str s => .str (pyStrip s)
  | v => v

/-- The dict loop of `deep_clean`: clean each value and skip entries whose
cleaned value is empty. -/
def cleanEntries : List (String × JVal) → List (String × JVal)
  | [] => []
  | (k, v) :: rest =>
    let c := deep_clean v
    if isEmptyVal c then cleanEntries rest else (k, c) :: cleanEntries rest

/-- The list comprehension pair of `deep_clean`: clean each element, then
drop the elements whose cleaned value is empty. -/
def cleanItems : List JVal → List JVal
  | [] => []
  | v :: rest =>
    let c := deep_clean v
    if isEmptyVal c then cleanItems rest else c :: cleanItems rest

end

/-- Python subscription `v[k]` with a string key: dict lookup, `KeyError`
when the key is missing, `TypeError` on non-dicts. -/
def pySubscript (v : JVal) (k : String) : Except String JVal :=
  match v with
  | .dict es =>
    match es.lookup k with
    | some w => .ok w
    | none => .error "KeyError"
  | _ => .error "TypeError"

/-- Python indexing `v[i]`: list or string indexing, `IndexError` out of
range, `TypeError` on other values (a dict has no integer keys here). -/
def pyIndex (v : JVal) (i : Nat) : Except String JVal :=
  match v with
  | .list items =>
    match items[i]? with
    | some w => .ok w
    | none => .error "IndexError"
  | .str s =>
    match s[i]? with
    | some c => .ok (.str [c])
    | none => .error "IndexError"
  | _ => .error "TypeError"

/-- `call_hf_api` from `llm_resume_builder.py`, from the point where the
HTTP response has been JSON-decoded into `result` (the transport call
itself is outside the model): locate the generated content in an
OpenAI-style envelope (`result["choices"][0]["message"]["content"]`), an
HF envelope (`result["generated_text"]`), or a list of generations
(`result[0]["generated_text"]`), and raise `ValueError` when none of these
shapes matches.  A raised Python exception is `Except.error`. -/
def call_hf_api (result : JVal) : Except String JVal :=
  match result with
  | .dict es =>
    if (es.lookup "choices").isSome then do
      let choices ← pySubscript result "choices"
      let c0 ← pyIndex choices 0
      let msg ← pySubscript c0 "message"
      pySubscript msg "content"
    else if (es.lookup "generated_text").isSome then
      pySubscript result "generated_text"
    else
      .error "ValueError: Unexpected HF response format from HuggingFace."
  | .list items =>
    match items with
    | [] => .error "IndexError"
    | first :: _ =>
      match first with
      | .dict fes =>
        match fes.lookup "generated_text" with
        | some v => .ok v
        | none => .error "ValueError: Unexpected HF response format from HuggingFace."
      | _ => .error "ValueError: Unexpected HF response format from HuggingFace."
  | _ => .error "ValueError: Unexpected HF response format from HuggingFace."

/-- Modelled from the spec: the constant `default_schema.DEFAULT_SCHEMA`
(module `default_schema` is not among the provided sources).  Reconstructed
from the prompt template inside `generate_resume_schema`, which embeds the
same reference-schema literal, and from the field list in the spec. -/
def DEFAULT_SCHEMA : JVal := .dict [
  ("resumeTitle", jstr ""),
  ("resumeType", jstr "Classic"),
  ("personalDetails", .dict [
    ("fullName", jstr ""), ("email", jstr ""), ("phone", jstr ""),
    ("address", jstr ""), ("about", jstr ""), ("socials", .list [])]),
  ("educationDetails", .list [.dict [
    ("name", jstr ""), ("degree", jstr ""),
    ("dates", .dict [("startDate", .null), ("endDate", .null)]),
    ("location", jstr ""),
    ("grades", .dict [("type", .null), ("score", jstr ""), ("message", jstr "")])]]),
  ("skills", .list [.dict [("skillName", jstr "")]]),
  ("professionalExperience", .list [.dict [
    ("companyName", jstr ""), ("companyAddress", jstr ""), ("position", jstr ""),
    ("dates", .dict [("startDate", .null), ("endDate", .null)]),
    ("workDescription", jstr "")]]),
  ("projects", .list [.dict [
    ("title", jstr ""), ("description", jstr ""), ("extraDetails", jstr ""),
    ("links", .list [.dict [("link", jstr "")]])]]),
  ("otherExperience", .list [.dict [
    ("companyName", jstr ""), ("companyAddress", jstr ""), ("position", jstr ""),
    ("dates", .dict [("startDate", .null), ("endDate", .null)]),
    ("workDescription", jstr "")]]),
  ("certifications", .list [.dict [
    ("issuingAuthority", jstr ""), ("title", jstr ""),
    ("issueDate", .null), ("link", jstr "")]])]

/-- `generate_resume_schema` from `llm_resume_builder.py`, abstracted over
the backend: `hfResponse` is the decoded HTTP response handed to
`call_hf_api`; `contentText` reads the located content as text (in Python
it already is a string); `parse` abstracts `json.loads`.  A backend
extraction failure propagates; otherwise the pipeline is repair-parse,
coerce against `DEFAULT_SCHEMA`, deep-clean. -/
def generate_resume_schema (parse : List Char → Option JVal)
    (contentText : JVal → List Char) (hfResponse : JVal) : Except String JVal :=
  match call_hf_api hfResponse with
  | .error e => .error e
  | .ok output =>
    let raw := safe_json_extract parse (contentText output)
    let normalized := enforce_schema_format raw DEFAULT_SCHEMA none
    .ok (deep_clean normalized)

mutual

/-- Container-shape agreement between a schema and a value, as the
specification states it: at a dict schema the value is a dict with exactly
the schema's keys, recursively; at a nonempty list schema the value is a
list each of whose items has the shape of the schema's first element (the
item template); at an empty list schema the value is a list; at a primitive
schema position the specification imposes no container constraint. -/
def shapeOK : JVal → JVal → Bool
  | .dict ss, v =>
    match v with
    | .dict vs => shapeOKEntries ss vs
    | _ => false
  | .list [], v => v.isList
  | .list (t :: _), v =>
    match v with
    | .list items => items.all fun i => shapeOK t i
    | _ => false
  | _, _ => true

/-- Entrywise shape agreement: keys coincide positionally and each value
has the shape of the corresponding schema value. -/
def shapeOKEntries : List (String × JVal) → List (String × JVal) → Bool
  | [], [] => true
  | (k, s) :: ss, (k2, v) :: vs => k == k2 && shapeOK s v && shapeOKEntries ss vs
  | _, _ => false

end

mutual

/-- Well-formed schema: every nonempty list it declares is a singleton item
template (recursively).  This is how the reference schema is actually
built, and it is the hypothesis under which the coercer's shape invariant
holds. -/
def wfSchema : JVal → Bool
  | .dict entries => wfEntries entries
  | .list [] => true
  | .list (t :: rest) => rest.isEmpty && wfSchema t
  | _ => true

/-- `wfSchema` for every value of an entry list. -/
def wfEntries : List (String × JVal) → Bool
  | [] => true
  | (_, v) :: rest => wfSchema v && wfEntries rest

end

mutual

/-- The pruner's output invariant, as the specification states it: no dict
entry and no list element is empty (`None`, `""`, `[]`, `{}`), recursively,
and every string is trimmed. -/
def noEmpties : JVal → Bool
  | .dict entries => noEmptiesEntries entries
  | .list items => noEmptiesItems items
  | .str s => pyStrip s == s
  | _ => true

/-- `noEmpties` plus nonemptiness for every value of an entry list. -/
def noEmptiesEntries : List (String × JVal) → Bool
  | [] => true
  | (_, v) :: rest => !isEmptyVal v && noEmpties v && noEmptiesEntries rest

/-- `noEmpties` plus nonemptiness for every element of a list. -/
def noEmptiesItems : List JVal → Bool
  | [] => true
  | v :: rest => !isEmptyVal v && noEmpties v && noEmptiesItems rest

end

/-- Distinctness of dict keys (Python dicts cannot repeat keys). -/
def keysNodup : List (String × JVal) → Bool
  | [] => true
  | (k, _) :: rest => !(rest.any fun q => q.1 == k) && keysNodup rest

mutual

/-- A schema whose own defaults survive coercion against itself: keys are
distinct; every primitive default is a fixed point of the sanitizer at its
key; every nonempty list default is a singleton whose element is a dict
satisfying the same condition, recursively. -/
def selfCoercible : JVal → Bool
  | .dict entries => keysNodup entries && entriesSelf entries
  | .list [] => true
  | .list (t :: rest) => rest.isEmpty && t.isDict && selfCoercible t
  | _ => true

/-- The entrywise condition of `selfCoercible`. -/
def entriesSelf : List (String × JVal) → Bool
  | [] => true
  | (k, v) :: rest =>
    (if v.isDict || v.isList then selfCoercible v
     else JVal.beq (sanitize_value (some k) v) v) && entriesSelf rest

end

/-- The response shapes in which `call_hf_api` can locate generated
content: a dict containing `"choices"` or `"generated_text"`, or a list
whose first element is a dict containing `"generated_text"`. -/
def contentLocatable : JVal → Bool
  | .dict es => (es.lookup "choices").isSome || (es.lookup "generated_text").isSome
  | .list (first :: _) =>
    match first with
    | .dict fes => (fes.lookup "generated_text").isSome
    | _ => false
  | _ => false

/-! ## Helper lemmas -/

theorem dropWhile_idem {α : Type} (p : α → Bool) (l : List α) :
    (l.dropWhile p).dropWhile p = l.dropWhile p := by
  induction l with
  | nil => simp
  | cons c l ih =>
    by_cases h : p c
    · simp [List.dropWhile_cons, h, ih]
    · simp [List.dropWhile_cons, h]

theorem dropWhile_fix_of_front {α : Type} {p : α → Bool} {s t : List α}
    (hp : s <+: t) (ht : t.dropWhile p = t) : s.dropWhile p = s := by
  cases s with
  | nil => simp
  | cons c s1 =>
    obtain ⟨r, hr⟩ := hp
    have hc : p c = false := by
      by_contra hc
      have hc2 : p c = true := by revert hc; cases p c <;> simp
      rw [← hr, List.cons_append, List.dropWhile_cons, hc2, if_pos rfl] at ht
      have hsub := (List.dropWhile_sublist (l := s1 ++ r) (p := p)).length_le
      have hlen := congrArg List.length ht
      rw [List.length_cons] at hlen
      omega
    simp [List.dropWhile_cons, hc]

theorem pyRstrip_front (l : List Char) : pyRstrip l <+: l := by
  refine ⟨(l.reverse.takeWhile isPySpace).reverse, ?_⟩
  conv_rhs => rw [← l.reverse_reverse,
    ← List.takeWhile_append_dropWhile (p := isPySpace) (l := l.reverse)]
  rw [List.reverse_append]
  rfl

theorem pyRstrip_pyRstrip (l : List Char) : pyRstrip (pyRstrip l) = pyRstrip l := by
  unfold pyRstrip
  rw [List.reverse_reverse, dropWhile_idem]

theorem pyStrip_idem (l : List Char) : pyStrip (pyStrip l) = pyStrip l := by
  unfold pyStrip
  rw [show pyLstrip (pyRstrip (pyLstrip l)) = pyRstrip (pyLstrip l) from
    dropWhile_fix_of_front (pyRstrip_front _) (dropWhile_idem _ _), pyRstrip_pyRstrip]

theorem count_append_quote (l : List Char) (c : Char) (hc : c ≠ '"') :
    (l ++ ['"']).count c = l.count c := by
  rw [List.count_append, List.count_cons, List.count_nil]
  simp [hc.symm]

mutual

theorem deep_clean_fix : ∀ v, deep_clean (deep_clean v) = deep_clean v
  | .null => rfl
  | .bool _ => rfl
  | .int _ => rfl
  | .float _ => rfl
  | .str s => by simp [deep_clean, pyStrip_idem]
  | .list items => by simp [deep_clean, cleanItems_fix items]
  | .dict entries => by simp [deep_clean, cleanEntries_fix entries]

theorem cleanEntries_fix : ∀ l, cleanEntries (cleanEntries l) = cleanEntries l
  | [] => rfl
  | (k, v) :: rest => by
    by_cases h : isEmptyVal (deep_clean v)
    · simp [cleanEntries, h, cleanEntries_fix rest]
    · simp [cleanEntries, h, deep_clean_fix v, cleanEntries_fix rest]

theorem cleanItems_fix : ∀ l, cleanItems (cleanItems l) = cleanItems l
  | [] => rfl
  | v :: rest => by
    by_cases h : isEmptyVal (deep_clean v)
    · simp [cleanItems, h, cleanItems_fix rest]
    · simp [cleanItems, h, deep_clean_fix v, cleanItems_fix rest]

end

mutual

theorem noEmpties_clean : ∀ v, noEmpties (deep_clean v) = true
  | .null => rfl
  | .bool _ => rfl
  | .int _ => rfl
  | .float _ => rfl
  | .str s => by simp [deep_clean, noEmpties, pyStrip_idem]
  | .list items => by simp [deep_clean, noEmpties, noEmptiesItems_clean items]
  | .dict entries => by simp [deep_clean, noEmpties, noEmptiesEntries_clean entries]

theorem noEmptiesEntries_clean : ∀ l, noEmptiesEntries (cleanEntries l) = true
  | [] => rfl
  | (k, v) :: rest => by
    by_cases h : isEmptyVal (deep_clean v)
    · simp [cleanEntries, h, noEmptiesEntries_clean rest]
    · simp [cleanEntries, h, noEmptiesEntries, noEmpties_clean v, noEmptiesEntries_clean rest]

theorem noEmptiesItems_clean : ∀ l, noEmptiesItems (cleanItems l) = true
  | [] => rfl
  | v :: rest => by
    by_cases h : isEmptyVal (deep_clean v)
    · simp [cleanItems, h, noEmptiesItems_clean rest]
    · simp [cleanItems, h, noEmptiesItems, noEmpties_clean v, noEmptiesItems_clean rest]

end

theorem mem_cleanEntries {l : List (String × JVal)} {k : String} {v : JVal}
    (hm : (k, v) ∈ l) (hfix : deep_clean v = v) (hne : isEmptyVal v = false) :
    (k, v) ∈ cleanEntries l := by
  induction l with
  | nil => cases hm
  | cons p rest ih =>
    obtain ⟨k0, v0⟩ := p
    rcases List.mem_cons.mp hm with h | h
    · obtain ⟨hk, hv⟩ := Prod.mk.injEq .. ▸ h
      subst hk; subst hv
      simp [cleanEntries, hfix, hne]
    · by_cases h0 : isEmptyVal (deep_clean v0) <;> simp [cleanEntries, h0, ih h]

theorem mem_cleanItems {l : List JVal} {v : JVal}
    (hm : v ∈ l) (hfix : deep_clean v = v) (hne : isEmptyVal v = false) :
    v ∈ cleanItems l := by
  induction l with
  | nil => cases hm
  | cons v0 rest ih =>
    rcases List.mem_cons.mp hm with h | h
    · subst h
      simp [cleanItems, hfix, hne]
    · by_cases h0 : isEmptyVal (deep_clean v0) <;> simp [cleanItems, h0, ih h]

theorem sanitize_value_none (v : JVal) : sanitize_value none v = v := by
  cases v <;> rfl

theorem shapeOK_prim (sv : JVal) (h1 : sv.isDict = false) (h2 : sv.isList = false)
    (v : JVal) : shapeOK sv v = true := by
  cases sv
  case dict es => simp [JVal.isDict] at h1
  case list items => simp [JVal.isList] at h2
  all_goals rfl

mutual

theorem shapeOK_refl : ∀ s, wfSchema s = true → shapeOK s s = true
  | .dict entries, h => by
    simp only [wfSchema] at h
    simp [shapeOK, shapeOKEntries_refl entries h]
  | .list [], _ => by simp [shapeOK, JVal.isList]
  | .list (t :: rest), h => by
    simp only [wfSchema, Bool.and_eq_true, List.isEmpty_iff] at h
    obtain ⟨hrest, ht⟩ := h
    subst hrest
    simp [shapeOK, shapeOK_refl t ht]
  | .null, _ => rfl
  | .bool _, _ => rfl
  | .int _, _ => rfl
  | .float _, _ => rfl
  | .str _, _ => rfl

theorem shapeOKEntries_refl : ∀ l, wfEntries l = true → shapeOKEntries l l = true
  | [], _ => rfl
  | (k, v) :: rest, h => by
    simp only [wfEntries, Bool.and_eq_true] at h
    simp [shapeOKEntries, shapeOK_refl v h.1, shapeOKEntries_refl rest h.2]

end

mutual

theorem enforce_shape : ∀ data schema ck, wfSchema schema = true →
    shapeOK schema (enforce_schema_format data schema ck) = true
  | data, .dict sentries, ck, h => by
    simp only [wfSchema] at h
    simp only [enforce_schema_format, shapeOK]
    exact coerceEntries_shape _ sentries h
  | data, .list sitems, ck, h => by
    cases data with
    | list ditems =>
      cases sitems with
      | nil => simp [enforce_schema_format, shapeOK, JVal.isList]
      | cons t rest =>
        simp only [wfSchema, Bool.and_eq_true, List.isEmpty_iff] at h
        simp only [enforce_schema_format, shapeOK]
        rw [List.all_eq_true]
        intro x hx
        obtain ⟨item, hmem, hf⟩ := List.mem_filterMap.mp hx
        by_cases hd : item.isDict = true
        · rw [if_pos hd] at hf
          obtain rfl := Option.some.injEq .. ▸ hf
          exact enforce_shape item t none h.2
        · rw [if_neg hd] at hf
          cases hf
    | null => cases sitems <;> simp [enforce_schema_format, shapeOK, JVal.isList]
    | bool b => cases sitems <;> simp [enforce_schema_format, shapeOK, JVal.isList]
    | int n => cases sitems <;> simp [enforce_schema_format, shapeOK, JVal.isList]
    | float q => cases sitems <;> simp [enforce_schema_format, shapeOK, JVal.isList]
    | str s => cases sitems <;> simp [enforce_schema_format, shapeOK, JVal.isList]
    | dict des => cases sitems <;> simp [enforce_schema_format, shapeOK, JVal.isList]
  | data, .null, ck, _ => shapeOK_prim .null rfl rfl _
  | data, .bool b, ck, _ => shapeOK_prim (.bool b) rfl rfl _
  | data, .int n, ck, _ => shapeOK_prim (.int n) rfl rfl _
  | data, .float q, ck, _ => shapeOK_prim (.float q) rfl rfl _
  | data, .str s, ck, _ => shapeOK_prim (.str s) rfl rfl _

theorem coerceEntries_shape : ∀ d sentries, wfEntries sentries = true →
    shapeOKEntries sentries (coerceEntries d sentries) = true
  | d, [], _ => rfl
  | d, (key, sv) :: rest, h => by
    simp only [wfEntries, Bool.and_eq_true] at h
    obtain ⟨hsv, hrest⟩ := h
    simp only [coerceEntries]
    cases hlk : d.lookup key with
    | none =>
      simp [shapeOKEntries, shapeOK_refl sv hsv, coerceEntries_shape d rest hrest]
    | some raw =>
      dsimp only
      by_cases hc : (sv.isDict || sv.isList) = true
      · rw [if_pos hc]
        simp [shapeOKEntries, enforce_shape raw sv (some key) hsv,
          coerceEntries_shape d rest hrest]
      · rw [if_neg hc]
        simp only [Bool.or_eq_true, not_or, Bool.not_eq_true] at hc
        simp [shapeOKEntries, shapeOK_prim sv hc.1 hc.2,
          coerceEntries_shape d rest hrest]

end

theorem lookup_of_keysNodup : ∀ l, keysNodup l = true →
    ∀ k v, (k, v) ∈ l → l.lookup k = some v
  | [], _, k, v, hm => by cases hm
  | (k0, v0) :: rest, h, k, v, hm => by
    simp only [keysNodup, Bool.and_eq_true, Bool.not_eq_true', List.any_eq_false] at h
    obtain ⟨hany, hrest⟩ := h
    rcases List.mem_cons.mp hm with he | he
    · obtain ⟨hk, hv⟩ := Prod.mk.injEq .. ▸ he
      subst hk; subst hv
      simp [List.lookup]
    · have hk : (k == k0) = false := by
        rw [beq_eq_false_iff_ne]
        intro he2
        subst he2
        exact absurd (hany (k, v) he) (by simp)
      simp only [List.lookup, hk]
      exact lookup_of_keysNodup rest hrest k v he

mutual

theorem enforce_self : ∀ v ck, selfCoercible v = true → (v.isDict || v.isList) = true →
    enforce_schema_format v v ck = v
  | .dict entries, ck, h, _ => by
    simp only [selfCoercible, Bool.and_eq_true] at h
    obtain ⟨hnd, hself⟩ := h
    simp only [enforce_schema_format]
    exact congrArg JVal.dict (coerceEntries_self entries entries hself
      (fun p hp => lookup_of_keysNodup entries hnd p.1 p.2 hp))
  | .list sitems, ck, h, _ => by
    cases sitems with
    | nil => simp [enforce_schema_format]
    | cons t rest =>
      simp only [selfCoercible, Bool.and_eq_true, List.isEmpty_iff] at h
      obtain ⟨⟨hrest, htd⟩, hts⟩ := h
      subst hrest
      simp only [enforce_schema_format]
      simp [htd, enforce_self t none hts (by simp [htd])]
  | .null, ck, _, hc => by simp [JVal.isDict, JVal.isList] at hc
  | .bool _, ck, _, hc => by simp [JVal.isDict, JVal.isList] at hc
  | .int _, ck, _, hc => by simp [JVal.isDict, JVal.isList] at hc
  | .float _, ck, _, hc => by simp [JVal.isDict, JVal.isList] at hc
  | .str _, ck, _, hc => by simp [JVal.isDict, JVal.isList] at hc

theorem coerceEntries_self : ∀ d sub, entriesSelf sub = true →
    (∀ p ∈ sub, d.lookup p.1 = some p.2) → coerceEntries d sub = sub
  | d, [], _, _ => rfl
  | d, (key, sv) :: rest, h, hl => by
    simp only [entriesSelf, Bool.and_eq_true] at h
    obtain ⟨h1, h2⟩ := h
    have hk : d.lookup key = some sv := hl (key, sv) (List.mem_cons_self _ _)
    have htail := coerceEntries_self d rest h2 (fun p hp => hl p (List.mem_cons_of_mem _ hp))
    simp only [coerceEntries, hk]
    by_cases hc : (sv.isDict || sv.isList) = true
    · rw [if_pos hc] at h1
      rw [if_pos hc, enforce_self sv (some key) h1 hc, htail]
    · rw [if_neg hc] at h1
      have hs : sanitize_value (some key) sv = sv := (JVal.beq_iff _ _).mp h1
      rw [if_neg hc, htail]
      simp [hs]

end

/-! ## Claims -/

/-- C1 (counterexample): the shape invariant fails as universally stated.
For the schema `S = a: [empty-dict-template, 5]` — a sequence whose item
template is a mapping but whose second default item is a number — coercing
the empty data `null` returns the default sequence verbatim, and its item
`5` does not have the item template's (mapping) shape. -/
theorem C1_shape_counterexample :
    shapeOK (.dict [("a", .list [.dict [], .int 5])])
      (enforce_schema_format .null (.dict [("a", .list [.dict [], .int 5])]) none) = false := by
  decide

/-- C1 (amended): for every schema whose nonempty sequences are singleton
item templates (`wfSchema` — true of the reference schema, which the
counterexample's schema violates), and every data and current key, the
coercion result has the schema's container shape: dict keys coincide with
the schema's keys and each sequence item matches the item template,
recursively. -/
theorem C1_enforce_schema_format_shape :
    ∀ (schema data : JVal) (ck : Option String), wfSchema schema = true →
      shapeOK schema (enforce_schema_format data schema ck) = true :=
  fun schema data ck h => enforce_shape data schema ck h

/-- C1 witness: the reference schema is well-formed and coercing `null`
against it produces a value of its shape. -/
theorem C1_enforce_schema_format_shape_witness :
    wfSchema DEFAULT_SCHEMA = true ∧
      shapeOK DEFAULT_SCHEMA (enforce_schema_format .null DEFAULT_SCHEMA none) = true :=
  ⟨by decide, C1_enforce_schema_format_shape DEFAULT_SCHEMA .null none (by decide)⟩

/-- C2: `safe_json_extract` never raises (its embedding is a total
function for every parser behaviour and every input string — the only
Python statement that can raise, `json.loads`, sits inside
`try/except Exception` modelled by the `parse` outcome); when the repaired
text fails to parse, the except branch prints a diagnostic (I/O, outside
the model) and returns the empty dict, and otherwise the parsed value is
returned. -/
theorem C2_safe_json_extract_never_raises :
    ∀ (parse : List Char → Option JVal) (text : List Char),
      (parse (repairText text) = none → safe_json_extract parse text = .dict []) ∧
      (∀ v, parse (repairText text) = some v → safe_json_extract parse text = v) := by
  intro parse text
  constructor
  · intro h
    simp [safe_json_extract, h]
  · intro v h
    simp [safe_json_extract, h]

/-- C2 witness: on the empty input with a parser that always fails, the
result is the empty dict. -/
theorem C2_safe_json_extract_witness :
    safe_json_extract (fun _ => none) [] = .dict [] :=
  (C2_safe_json_extract_never_raises (fun _ => none) []).1 rfl

/-- C3: `deep_clean` is idempotent on every JSON-like value. -/
theorem C3_deep_clean_idempotent :
    ∀ x : JVal, deep_clean (deep_clean x) = deep_clean x :=
  deep_clean_fix

/-- C4: the output of `deep_clean` contains, at any depth, no dict entry
and no list element whose value is `None`, `""`, `[]` or `{}`, and every
string in it is trimmed; moreover the spec's example holds — entries whose
children all prune away vanish themselves. -/
theorem C4_deep_clean_no_empties :
    (∀ x : JVal, noEmpties (deep_clean x) = true) ∧
      deep_clean (.dict [("a", jstr ""), ("b", .dict [("c", .list [])]), ("d", jstr "x")])
        = .dict [("d", jstr "x")] :=
  ⟨noEmpties_clean, by decide⟩

/-- C5 (counterexample): coercing a schema's own defaults against itself
is not a fixed point for every schema: for `S = score: "96%"` the
sanitizer strips the percent sign from the default itself, so
`enforce_schema_format(S, S)` differs from `S`. -/
theorem C5_fixed_point_counterexample :
    enforce_schema_format (.dict [("score", jstr "96%")])
      (.dict [("score", jstr "96%")]) none ≠ .dict [("score", jstr "96%")] := by
  decide

/-- C5 (amended): coercing a schema's own defaults against itself is a
fixed point for every self-coercible schema: distinct keys, every
primitive default fixed by the sanitizer at its key, and every nonempty
sequence default a singleton dict template, recursively (all true of the
reference schema; the counterexample's default `"96%"` is not
sanitizer-fixed). -/
theorem C5_enforce_self_fixed :
    ∀ S : JVal, selfCoercible S = true → enforce_schema_format S S none = S := by
  intro S h
  cases S with
  | dict es => exact enforce_self _ none h rfl
  | list items => exact enforce_self _ none h rfl
  | null => rfl
  | bool b => simp [enforce_schema_format, sanitize_value_none]
  | int n => simp [enforce_schema_format, sanitize_value_none]
  | float q => simp [enforce_schema_format, sanitize_value_none]
  | str s => simp [enforce_schema_format, sanitize_value_none]

/-- C5 witness: the reference schema is self-coercible and is a fixed
point of coercion against itself. -/
theorem C5_enforce_self_fixed_witness :
    selfCoercible DEFAULT_SCHEMA = true ∧
      enforce_schema_format DEFAULT_SCHEMA DEFAULT_SCHEMA none = DEFAULT_SCHEMA :=
  ⟨by decide, C5_enforce_self_fixed DEFAULT_SCHEMA (by decide)⟩

/-- C6: the repaired text handed to the JSON parser is exactly the
rstripped input followed, in order, by: one closing quote if the count of
unescaped double quotes is odd; one `}` if `{`s exceed `}`s; one `]` if
`[`s exceed `]`s; and one more `}` if, recounting the appended brace,
closing braces are still fewer than opening braces. -/
theorem C6_repair_appends_exactly :
    ∀ text : List Char, repairText text = repairSpecText text := by
  intro text
  unfold repairText repairSpecText
  by_cases hq : countUnescQuotes (pyRstrip text) % 2 = 1
  · simp only [hq, if_true]
    rw [count_append_quote _ '{' (by decide), count_append_quote _ '}' (by decide),
      count_append_quote _ '[' (by decide), count_append_quote _ ']' (by decide)]
    simp only [gt_iff_lt]
    by_cases h1 : (pyRstrip text).count '}' < (pyRstrip text).count '{' <;>
      by_cases h2 : (pyRstrip text).count ']' < (pyRstrip text).count '[' <;>
        simp [h1, h2, List.count_cons, List.count_nil, List.count_append] <;>
          split <;> simp [List.append_assoc]
  · simp only [hq, if_false]
    simp only [gt_iff_lt]
    by_cases h1 : (pyRstrip text).count '}' < (pyRstrip text).count '{' <;>
      by_cases h2 : (pyRstrip text).count ']' < (pyRstrip text).count '[' <;>
        simp [h1, h2, List.count_cons, List.count_nil, List.count_append] <;>
          split <;> simp [List.append_assoc]

/-- C7: the sanitizer's field-keyed rules: `score` strings lose every `%`
and surrounding whitespace; `startDate`/`endDate`/`issueDate` strings of
exactly 7 characters gain `-01`, all other lengths pass through unchanged;
including the spec's three concrete examples. -/
theorem C7_sanitize_value_rules :
    (∀ s : List Char, sanitize_value (some "score") (.str s)
        = .str (pyStrip (s.filter fun c => c ≠ '%'))) ∧
    (∀ k : String, (k = "startDate" ∨ k = "endDate" ∨ k = "issueDate") →
      ∀ s : List Char,
        (s.length = 7 → sanitize_value (some k) (.str s) = .str (s ++ "-01".data)) ∧
        (s.length ≠ 7 → sanitize_value (some k) (.str s) = .str s)) ∧
    sanitize_value (some "score") (jstr "96%") = jstr "96" ∧
    sanitize_value (some "startDate") (jstr "2022-08") = jstr "2022-08-01" ∧
    sanitize_value (some "startDate") (jstr "2022-08-01") = jstr "2022-08-01" := by
  refine ⟨fun s => rfl, ?_, by decide, by decide, by decide⟩
  intro k hk s
  rcases hk with rfl | rfl | rfl <;>
    exact ⟨fun h7 => by simp [sanitize_value, h7], fun h7 => by simp [sanitize_value, h7]⟩

/-- C7 witness: an `endDate` of 7 characters is completed to a full ISO
date. -/
theorem C7_sanitize_value_witness :
    sanitize_value (some "endDate") (.str "2021-03".data) = .str ("2021-03".data ++ "-01".data) :=
  (C7_sanitize_value_rules.2.1 "endDate" (Or.inr (Or.inl rfl)) "2021-03".data).1 (by decide)

/-- C8: list-schema coercion: non-list data yields the empty list; an
empty schema list keeps exactly the dict and string elements of the data;
a nonempty schema list coerces every dict element against its first
element and drops every non-dict element; including the spec's `skills`
example. -/
theorem C8_enforce_list_schema :
    (∀ (sitems : List JVal) (data : JVal) (ck : Option String), data.isList = false →
      enforce_schema_format data (.list sitems) ck = .list []) ∧
    (∀ (ditems : List JVal) (ck : Option String),
      enforce_schema_format (.list ditems) (.list []) ck
        = .list (ditems.filter fun i => i.isDict || i.isStr)) ∧
    (∀ (ditems : List JVal) (t : JVal) (rest : List JVal) (ck : Option String),
      enforce_schema_format (.list ditems) (.list (t :: rest)) ck
        = .list (ditems.filterMap fun i =>
            if i.isDict then some (enforce_schema_format i t none) else none)) ∧
    enforce_schema_format (.dict [("skills", jstr "not a list")])
        (.dict [("skills", .list [.dict [("skillName", jstr "")]])]) none
      = .dict [("skills", .list [])] := by
  refine ⟨?_, fun ditems ck => rfl, fun ditems t rest ck => rfl, by decide⟩
  intro sitems data ck h
  cases data <;> first | rfl | simp [JVal.isList] at h

/-- C8 witness: string data against the `skills` sequence schema yields
the empty sequence. -/
theorem C8_enforce_list_schema_witness :
    (jstr "not a list").isList = false ∧
      enforce_schema_format (jstr "not a list")
        (.list [.dict [("skillName", jstr "")]]) none = .list [] :=
  ⟨rfl, C8_enforce_list_schema.1 [.dict [("skillName", jstr "")]] (jstr "not a list") none rfl⟩

/-- C9: whenever the decoded backend response is not of a
content-locatable shape (a dict containing `choices` or `generated_text`,
or a list whose first element is a dict containing `generated_text`),
`call_hf_api` raises; and any `call_hf_api` error propagates out of
`generate_resume_schema` unchanged, never replaced by a default. -/
theorem C9_backend_error_propagates :
    (∀ result : JVal, contentLocatable result = false → (call_hf_api result).isOk = false) ∧
    (∀ (parse : List Char → Option JVal) (contentText : JVal → List Char)
        (r : JVal) (e : String),
      call_hf_api r = .error e → generate_resume_schema parse contentText r = .error e) := by
  constructor
  · intro r h
    cases r with
    | dict es =>
      simp only [contentLocatable, Bool.or_eq_false_iff] at h
      simp [call_hf_api, h.1, h.2, Except.isOk, Except.toBool]
    | list items =>
      cases items with
      | nil => rfl
      | cons first rest =>
        cases first with
        | dict fes =>
          simp only [contentLocatable] at h
          cases hlk : fes.lookup "generated_text" with
          | none => simp [call_hf_api, hlk, Except.isOk, Except.toBool]
          | some v => rw [hlk] at h; cases h
        | null => rfl
        | bool b => rfl
        | int n => rfl
        | float q => rfl
        | str s => rfl
        | list l => rfl
    | null => rfl
    | bool b => rfl
    | int n => rfl
    | float q => rfl
    | str s => rfl
  · intro parse contentText r e h
    simp [generate_resume_schema, h]

/-- C9 witness: a `null` response is not content-locatable, `call_hf_api`
fails on it, and the failure propagates out of `generate_resume_schema`. -/
theorem C9_backend_error_witness :
    (call_hf_api .null).isOk = false ∧
      generate_resume_schema (fun _ => none) (fun _ => []) .null
        = .error "ValueError: Unexpected HF response format from HuggingFace." :=
  ⟨C9_backend_error_propagates.1 .null rfl,
    C9_backend_error_propagates.2 (fun _ => none) (fun _ => []) .null _ rfl⟩

/-- C10: `deep_clean` treats only `None`, `""`, `[]` and `{}` as empty,
and a dict entry or list element equal to `0`, `0.0` or `False` survives
cleaning. -/
theorem C10_deep_clean_keeps_falsy :
    (∀ v : JVal, isEmptyVal v = true ↔
      (v = .null ∨ v = .str [] ∨ v = .list [] ∨ v = .dict [])) ∧
    (∀ (entries : List (String × JVal)) (k : String) (v : JVal), (k, v) ∈ entries →
      (v = .int 0 ∨ v = .float 0 ∨ v = .bool false) →
      ∃ l, deep_clean (.dict entries) = .dict l ∧ (k, v) ∈ l) ∧
    (∀ (items : List JVal) (v : JVal), v ∈ items →
      (v = .int 0 ∨ v = .float 0 ∨ v = .bool false) →
      ∃ l, deep_clean (.list items) = .list l ∧ v ∈ l) := by
  refine ⟨?_, ?_, ?_⟩
  · intro v
    cases v with
    | str s => cases s <;> simp [isEmptyVal]
    | list items => cases items <;> simp [isEmptyVal]
    | dict es => cases es <;> simp [isEmptyVal]
    | null => simp [isEmptyVal]
    | bool b => simp [isEmptyVal]
    | int n => simp [isEmptyVal]
    | float q => simp [isEmptyVal]
  · intro entries k v hm hv
    refine ⟨cleanEntries entries, rfl, ?_⟩
    rcases hv with rfl | rfl | rfl <;> exact mem_cleanEntries hm rfl rfl
  · intro items v hm hv
    refine ⟨cleanItems items, rfl, ?_⟩
    rcases hv with rfl | rfl | rfl <;> exact mem_cleanItems hm rfl rfl

/-- C10 witness: the entry `a: 0` survives `deep_clean`. -/
theorem C10_deep_clean_keeps_falsy_witness :
    ∃ l, deep_clean (.dict [("a", .int 0)]) = .dict l ∧ ("a", .int 0) ∈ l :=
  C10_deep_clean_keeps_falsy.2.1 [("a", .int 0)] "a" (.int 0) (by simp) (Or.inl rfl)

end ResumeBuilder
